import Mathlib

/-!
Verification development for the DevFlow documentation portal.

The definitions below are a shallow embedding of the repository's renderer
pipeline (`renderMarkdown`, `highlightCode`, `escapeHtml` in
`guide-viewer.component.ts`) and of the guide-catalog service
(`guide.model.ts` / `GuideService`).  Strings are modelled as `List Char`;
each JavaScript `String.prototype.replace` call with a regular expression is
modelled by an explicit left-to-right, non-overlapping scan that mirrors the
backtracking behaviour of the concrete pattern used at that call site.
-/

set_option maxRecDepth 20000

namespace DevFlow

/-- Character constants written via code points so that the source file stays
free of backtick / apostrophe / brace character literals. -/
def btick : Char := Char.ofNat 96

def squote : Char := Char.ofNat 39

def lbrace : Char := Char.ofNat 123

/-- JavaScript `\w` word characters: ASCII letters, digits and underscore. -/
def isWordChar (c : Char) : Bool :=
  c.isAlpha || c.isDigit || c = '_'

/-- Whitespace recognised by JavaScript `String.prototype.trim`
(restricted to the code points that can occur in the catalog's content). -/
def isJsSpace (c : Char) : Bool :=
  c = ' ' || c = '\t' || c = '\n' || c = '\r' ||
  c = Char.ofNat 11 || c = Char.ofNat 12 || c = Char.ofNat 160

/-- Model of `String.prototype.trim` on a character list. -/
def jsTrim (l : List Char) : List Char :=
  ((l.dropWhile isJsSpace).reverse.dropWhile isJsSpace).reverse

/-- Does `pat` occur as a contiguous substring of `l`? -/
def containsSub (pat : List Char) : List Char → Bool
  | [] => pat.isEmpty
  | c :: t => pat.isPrefixOf (c :: t) || containsSub pat t

/-- Number of positions of `l` at which `pat` occurs (occurrences may overlap). -/
def countSub (pat : List Char) : List Char → Nat
  | [] => if pat.isEmpty then 1 else 0
  | c :: t => (if pat.isPrefixOf (c :: t) then 1 else 0) + countSub pat t

/-- Fuelled body of the scanning engine; the fuel is an upper bound on the
number of scan steps, so that the recursion is structural and hence
computable by the kernel. -/
def scanRepF (f : List Char → Option (List Char × Nat)) :
    Nat → List Char → List Char
  | _, [] => []
  | 0, l => l
  | fuel + 1, c :: cs =>
    match f (c :: cs) with
    | some (r, n) => r ++ scanRepF f fuel (cs.drop (n - 1))
    | none => c :: scanRepF f fuel cs

/-- Generic engine for a global (`g`-flagged) regex replace: at every
position the matcher `f` either matches a non-empty prefix (returning the
replacement text and the total number of characters consumed) or fails, in
which case scanning advances one character.  This mirrors how the JavaScript
engine resumes after `lastIndex`.  Every step consumes at least one
character, so `l.length` steps always suffice. -/
def scanRep (f : List Char → Option (List Char × Nat)) (l : List Char) :
    List Char :=
  scanRepF f l.length l

/-- Fuelled body of the boundary-aware engine. -/
def scanRepBF (f : Option Char → List Char → Option (List Char × Nat)) :
    Nat → Option Char → List Char → List Char
  | _, _, [] => []
  | 0, _, l => l
  | fuel + 1, prev, c :: cs =>
    match f prev (c :: cs) with
    | some (r, n) =>
      r ++ scanRepBF f fuel (some ((cs.take (n - 1)).getLastD c)) (cs.drop (n - 1))
    | none => c :: scanRepBF f fuel (some c) cs

/-- Variant of `scanRep` that threads the previous character of the input,
needed for patterns with a leading `\b` word-boundary assertion. -/
def scanRepB (f : Option Char → List Char → Option (List Char × Nat))
    (prev : Option Char) (l : List Char) : List Char :=
  scanRepBF f l.length prev l

/-- Split a character list at newline characters (the line structure used by
`m`-flagged anchors `^` and `$`). -/
def splitNl : List Char → List (List Char)
  | [] => [[]]
  | c :: cs =>
    if c = '\n' then [] :: splitNl cs
    else
      match splitNl cs with
      | [] => [[c]]
      | l :: ls => (c :: l) :: ls

def joinNl (ls : List (List Char)) : List Char :=
  List.intercalate ['\n'] ls

/-- Apply a per-line rewriting (an `m`-flagged whole-line pattern) to every
line of the input. -/
def mapLines (f : List Char → List Char) (l : List Char) : List Char :=
  joinNl ((splitNl l).map f)

/-- First occurrence of `pat`: returns the text before the match and the text
after it. -/
def splitFirst (pat : List Char) : List Char → Option (List Char × List Char)
  | [] => if pat.isEmpty then some ([], []) else none
  | c :: cs =>
    if pat.isPrefixOf (c :: cs) then some ([], (c :: cs).drop pat.length)
    else (splitFirst pat cs).map (fun p => (c :: p.1, p.2))

/-- Last occurrence of `pat` (the one a greedy `.*` backtracks to), computed
by searching the reversed list for the reversed pattern. -/
def splitLast (pat : List Char) (l : List Char) : Option (List Char × List Char) :=
  match splitFirst pat.reverse l.reverse with
  | none => none
  | some (a, b) => some (b.reverse, a.reverse)

/-- Model of the component's `escapeHtml`: it assigns the text to a DOM node and reads
back `innerHTML`; that serialization escapes exactly `&`, `<` and `>` in text
content. -/
def escapeHtml : List Char → List Char
  | [] => []
  | '&' :: r => "&amp;".toList ++ escapeHtml r
  | '<' :: r => "&lt;".toList ++ escapeHtml r
  | '>' :: r => "&gt;".toList ++ escapeHtml r
  | c :: r => c :: escapeHtml r

/-- One line of a header pass `^<hashes> (.*$)` with replacement
`<tag>$1</tag>` (`gim` flags, so the pattern is applied to every line). -/
def headerLine (hashes tag : List Char) (line : List Char) : List Char :=
  if (hashes ++ [' ']).isPrefixOf line then
    ('<' :: tag ++ ['>']) ++ line.drop (hashes.length + 1) ++ ('<' :: '/' :: tag ++ ['>'])
  else line

/-- One line of the unordered-list item pass `^\- (.*$)` → `<li>$1</li>`. -/
def liLine (line : List Char) : List Char :=
  if ('-' :: [' ']).isPrefixOf line then
    "<li>".toList ++ line.drop 2 ++ "</li>".toList
  else line

/-- One line of the ordered-list item pass `^\d+\. (.*$)` → `<li>$1</li>`. -/
def olLine (line : List Char) : List Char :=
  let d := line.takeWhile Char.isDigit
  if d ≠ [] && ('.' :: [' ']).isPrefixOf (line.drop d.length) then
    "<li>".toList ++ line.drop (d.length + 2) ++ "</li>".toList
  else line

/-- One line of the horizontal-rule pass `^---$` → `<hr>`. -/
def hrLine (line : List Char) : List Char :=
  if line = "---".toList then "<hr>".toList else line

/-- Search for the lazy closing `\*\*` of the bold pattern on the current
line: the earliest following `**`, with `.` not crossing a newline.  Returns
the matched content together with the number of characters consumed
(content plus the two closing stars). -/
def boldClose : List Char → Option (List Char × Nat)
  | [] => none
  | c :: cs =>
    if c = '*' && cs.head? = some '*' then some ([], 2)
    else if c = '\n' then none
    else (boldClose cs).map (fun p => (c :: p.1, p.2 + 1))

/-- Matcher of the bold pass `\*\*(.*?)\*\*` → `<strong>$1</strong>`. -/
def boldTry : List Char → Option (List Char × Nat)
  | c1 :: c2 :: rest =>
    if c1 = '*' && c2 = '*' then
      (boldClose rest).map
        (fun p => ("<strong>".toList ++ p.1 ++ "</strong>".toList, 2 + p.2))
    else none
  | _ => none

/-- Search for the lazy closing `\*` of the italic pattern on the current
line. -/
def italClose : List Char → Option (List Char × Nat)
  | [] => none
  | c :: cs =>
    if c = '*' then some ([], 1)
    else if c = '\n' then none
    else (italClose cs).map (fun p => (c :: p.1, p.2 + 1))

/-- Matcher of the italic pass `\*(.*?)\*` → `<em>$1</em>`. -/
def italTry : List Char → Option (List Char × Nat)
  | c :: rest =>
    if c = '*' then
      (italClose rest).map
        (fun p => ("<em>".toList ++ p.1 ++ "</em>".toList, 1 + p.2))
    else none
  | [] => none

/-- Matcher of the inline-code pass `` `([^`]+)` `` → `<code>$1</code>`. -/
def inlineCodeTry : List Char → Option (List Char × Nat)
  | c :: rest =>
    if c = btick then
      let ct := rest.takeWhile (fun x => x ≠ btick)
      if ct ≠ [] && (rest.drop ct.length).head? = some btick then
        some ("<code>".toList ++ ct ++ "</code>".toList, ct.length + 2)
      else none
    else none
  | [] => none

/-- Matcher of the link pass `\[([^\]]+)\]\(([^)]+)\)` →
`<a href="$2" target="_blank">$1</a>`. -/
def linkTry : List Char → Option (List Char × Nat)
  | '[' :: rest =>
    let lab := rest.takeWhile (fun x => x ≠ ']')
    if lab ≠ [] then
      match rest.drop lab.length with
      | ']' :: '(' :: r3 =>
        let url := r3.takeWhile (fun x => x ≠ ')')
        if url ≠ [] && (r3.drop url.length).head? = some ')' then
          some ("<a href=\"".toList ++ url ++ "\" target=\"_blank\">".toList ++
                  lab ++ "</a>".toList,
                1 + lab.length + 2 + url.length + 1)
        else none
      | _ => none
    else none
  | _ => none

/-- Matcher of the paragraph pass `\n\n` → `</p><p>`. -/
def paraTry : List Char → Option (List Char × Nat)
  | c1 :: c2 :: _ =>
    if c1 = '\n' && c2 = '\n' then some ("</p><p>".toList, 2) else none
  | _ => none

/-- The single (non-global) `s`-flagged wrap pass `(<li>.*<\/li>)` →
`<ul>$1</ul>`: the greedy `.*` spans newlines and backtracks to the *last*
`</li>` of the document, so the one replaced span runs from the first `<li>`
to the last `</li>`. -/
def ulWrapPass (l : List Char) : List Char :=
  match splitFirst "<li>".toList l with
  | none => l
  | some (pre, rest) =>
    match splitLast "</li>".toList rest with
    | none => l
    | some (mid, post) =>
      pre ++ "<ul>".toList ++ "<li>".toList ++ mid ++ "</li>".toList ++
        "</ul>".toList ++ post

/-- Case-insensitive literal prefix test (for the `i`-flagged cleanup
patterns; the patterns themselves are written in lower case). -/
def ciPrefix (pat l : List Char) : Bool :=
  (l.take pat.length).map Char.toLower == pat

/-- Cleanup matcher for `<p><\/p>` → empty replacement. -/
def emptyPTry (l : List Char) : Option (List Char × Nat) :=
  if ciPrefix "<p></p>".toList l then some ([], 7) else none

/-- Is `c` one of the digits `1`–`6` (the `[1-6]` class of the header-cleanup
patterns)? -/
def isH16 (c : Char) : Bool :=
  c = '1' || c = '2' || c = '3' || c = '4' || c = '5' || c = '6'

/-- Cleanup matcher for `<p>(<h[1-6]>)` → `$1`. -/
def pOpenHTry (l : List Char) : Option (List Char × Nat) :=
  if ciPrefix "<p><h".toList l &&
      (l.drop 5).head?.elim false isH16 &&
      (l.drop 6).head? = some '>' then
    some ((l.drop 3).take 4, 7)
  else none

/-- Cleanup matcher for `(<\/h[1-6]>)<\/p>` → `$1`. -/
def closeHPTry (l : List Char) : Option (List Char × Nat) :=
  if ciPrefix "</h".toList l &&
      (l.drop 3).head?.elim false isH16 &&
      (l.drop 4).head? = some '>' &&
      ciPrefix "</p>".toList (l.drop 5) then
    some (l.take 5, 9)
  else none

/-- Cleanup matcher for `<p>(<ul>)` → `$1`. -/
def pUlTry (l : List Char) : Option (List Char × Nat) :=
  if ciPrefix "<p><ul>".toList l then some ((l.drop 3).take 4, 7) else none

/-- Cleanup matcher for `(<\/ul>)<\/p>` → `$1`. -/
def ulPTry (l : List Char) : Option (List Char × Nat) :=
  if ciPrefix "</ul></p>".toList l then some (l.take 5, 9) else none

/-- Cleanup matcher for `<p>(<div class="code-wrapper">)` → `$1`. -/
def pDivTry (l : List Char) : Option (List Char × Nat) :=
  if ciPrefix "<p><div class=\"code-wrapper\">".toList l then
    some ((l.drop 3).take 26, 29)
  else none

/-- Cleanup matcher for `(<\/div>)<\/p>` → `$1`. -/
def divPTry (l : List Char) : Option (List Char × Nat) :=
  if ciPrefix "</div></p>".toList l then some (l.take 6, 10) else none

/-- Cleanup matcher for `<p>(<hr>)<\/p>` → `$1`. -/
def pHrPTry (l : List Char) : Option (List Char × Nat) :=
  if ciPrefix "<p><hr></p>".toList l then some ((l.drop 3).take 4, 11) else none

/-- No word boundary obstruction on the left: the previous character (if any)
is a non-word character. -/
def prevOk (prev : Option Char) : Bool :=
  prev.elim true (fun c => !isWordChar c)

/-- No word boundary obstruction on the right: the next character (if any)
is a non-word character. -/
def nextOk (l : List Char) : Bool :=
  l.head?.elim true (fun c => !isWordChar c)

/-- Matcher of one keyword pass `\b(<kw>)\b` →
`<span class="keyword">$1</span>` of the C-family highlighter. -/
def kwTry (kw : List Char) (prev : Option Char) (l : List Char) :
    Option (List Char × Nat) :=
  if prevOk prev && kw.isPrefixOf l && nextOk (l.drop kw.length) then
    some ("<span class=\"keyword\">".toList ++ kw ++ "</span>".toList, kw.length)
  else none

/-- The keyword list of the C-family branch, in source order. -/
def keywordsJs : List String :=
  ["public", "private", "protected", "class", "interface", "extends",
   "implements", "import", "package", "return", "if", "else", "for", "while",
   "do", "switch", "case", "break", "continue", "new", "this", "super",
   "static", "final", "abstract", "void", "int", "long", "double", "float",
   "boolean", "String", "const", "let", "var", "function", "async", "await",
   "try", "catch", "throw"]

/-- Matcher of the annotation pass `@(\w+)` →
`<span class="keyword">@$1</span>`. -/
def annTry : List Char → Option (List Char × Nat)
  | '@' :: rest =>
    let w := rest.takeWhile isWordChar
    if w ≠ [] then
      some ("<span class=\"keyword\">@".toList ++ w ++ "</span>".toList,
            1 + w.length)
    else none
  | _ => none

/-- Matcher of the double-quoted string pass `"([^"]*)"` →
`<span class="string">"$1"</span>`. -/
def dstrTry : List Char → Option (List Char × Nat)
  | '"' :: rest =>
    let ct := rest.takeWhile (fun x => x ≠ '"')
    if (rest.drop ct.length).head? = some '"' then
      some ("<span class=\"string\">\"".toList ++ ct ++ "\"</span>".toList,
            ct.length + 2)
    else none
  | _ => none

/-- Matcher of the single-quoted string pass (pattern analogous to the
double-quoted one, with apostrophes). -/
def sstrTry (l : List Char) : Option (List Char × Nat) :=
  match l with
  | c :: rest =>
    if c = squote then
      let ct := rest.takeWhile (fun x => x ≠ squote)
      if (rest.drop ct.length).head? = some squote then
        some ("<span class=\"string\">".toList ++ (squote :: ct) ++
                (squote :: "</span>".toList),
              ct.length + 2)
      else none
    else none
  | [] => none

/-- Matcher of the number pass `\b(\d+\.?\d*)\b` →
`<span class="number">$1</span>`, with the backtracking of the optional dot
and the trailing digit run made explicit. -/
def numTry (prev : Option Char) (l : List Char) : Option (List Char × Nat) :=
  let wrap : List Char → Option (List Char × Nat) := fun m =>
    some ("<span class=\"number\">".toList ++ m ++ "</span>".toList, m.length)
  if prevOk prev then
    let d1 := l.takeWhile Char.isDigit
    if d1 = [] then none
    else
      match l.drop d1.length with
      | '.' :: r2 =>
        let d2 := r2.takeWhile Char.isDigit
        if d2 ≠ [] then
          if nextOk (r2.drop d2.length) then wrap (d1 ++ '.' :: d2)
          else wrap (d1 ++ ['.'])
        else
          if r2.head?.elim false isWordChar then wrap (d1 ++ ['.'])
          else wrap d1
      | r1 => if nextOk r1 then wrap d1 else none
  else none

/-- Matcher of the line-comment pass `\/\/(.*?)$` (with `m` flag) →
`<span class="comment">//$1</span>`: the lazy content together with the
line-end anchor captures the rest of the line. -/
def lineCommentTry : List Char → Option (List Char × Nat)
  | '/' :: '/' :: rest =>
    let ct := rest.takeWhile (fun x => x ≠ '\n')
    some ("<span class=\"comment\">//".toList ++ ct ++ "</span>".toList,
          2 + ct.length)
  | _ => none

/-- Lazy search for the closing `*/` of a block comment. -/
def blockClose : List Char → Option (List Char × Nat)
  | [] => none
  | c :: cs =>
    if c = '*' && cs.head? = some '/' then some ([], 2)
    else (blockClose cs).map (fun p => (c :: p.1, p.2 + 1))

/-- Matcher of the block-comment pass `\/\*([\s\S]*?)\*\/` →
`<span class="comment">/*$1*/</span>`. -/
def blockCommentTry : List Char → Option (List Char × Nat)
  | '/' :: '*' :: rest =>
    (blockClose rest).map
      (fun p => ("<span class=\"comment\">/*".toList ++ p.1 ++
                   "*/</span>".toList, 2 + p.2))
  | _ => none

/-- Matcher of the capitalized-identifier pass `\b([A-Z]\w+)\b` →
`<span class="class">$1</span>`. -/
def classTry (prev : Option Char) (l : List Char) : Option (List Char × Nat) :=
  if prevOk prev then
    match l with
    | c :: rest =>
      if c.isUpper then
        let w := rest.takeWhile isWordChar
        if w ≠ [] then
          some ("<span class=\"class\">".toList ++ (c :: w) ++
                  "</span>".toList, 1 + w.length)
        else none
      else none
    | [] => none
  else none

/-- The `java`/`javascript`/`typescript`/`js`/`ts` branch of `highlightCode`,
applied to already-escaped text, with the passes in source order. -/
def jsHighlight (highlighted : List Char) : List Char :=
  let highlighted :=
    keywordsJs.foldl (fun acc kw => scanRepB (kwTry kw.toList) none acc)
      highlighted
  let highlighted := scanRep annTry highlighted
  let highlighted := scanRep dstrTry highlighted
  let highlighted := scanRep sstrTry highlighted
  let highlighted := scanRepB numTry none highlighted
  let highlighted := scanRep lineCommentTry highlighted
  let highlighted := scanRep blockCommentTry highlighted
  scanRepB classTry none highlighted

/-- Matcher of the CSS property pass `([a-z-]+):` →
`<span class="property">$1</span>:`. -/
def cssPropTry (l : List Char) : Option (List Char × Nat) :=
  let w := l.takeWhile (fun c => c.isLower || c = '-')
  if w ≠ [] && (l.drop w.length).head? = some ':' then
    some ("<span class=\"property\">".toList ++ w ++ "</span>:".toList,
          w.length + 1)
  else none

/-- Matcher of the CSS value pass `:([^;{]+)` →
`: <span class="string">$1</span>`. -/
def cssValTry (l : List Char) : Option (List Char × Nat) :=
  match l with
  | ':' :: rest =>
    let ct := rest.takeWhile (fun c => c ≠ ';' && c ≠ lbrace)
    if ct ≠ [] then
      some (": <span class=\"string\">".toList ++ ct ++ "</span>".toList,
            1 + ct.length)
    else none
  | _ => none

/-- Matcher of the CSS selector pattern `^([.#]?[\w-]+)(\s*\x7b)?` (with `m`
flag) at a line-start position, with replacement
`<span class="class">$1</span>$2`. -/
def cssSelTry (l : List Char) : Option (List Char × Nat) :=
  let pr : List Char × List Char :=
    match l with
    | c :: r => if c = '.' || c = '#' then ([c], r) else ([], l)
    | [] => ([], [])
  let w := pr.2.takeWhile (fun c => isWordChar c || c = '-')
  if w = [] then none
  else
    let r2 := pr.2.drop w.length
    let ws := r2.takeWhile isJsSpace
    let g2 : List Char :=
      if (r2.drop ws.length).head? = some lbrace then ws ++ [lbrace] else []
    some ("<span class=\"class\">".toList ++ pr.1 ++ w ++ "</span>".toList ++
            g2,
          pr.1.length + w.length + g2.length)

/-- Fuelled driver for the line-anchored CSS selector pass: the flag records
whether the scan currently sits at the start of a line. -/
def cssSelGoF : Nat → Bool → List Char → List Char
  | _, _, [] => []
  | 0, _, l => l
  | fuel + 1, atStart, c :: cs =>
    if atStart then
      match cssSelTry (c :: cs) with
      | some (r, n) => r ++ cssSelGoF fuel false (cs.drop (n - 1))
      | none => c :: cssSelGoF fuel (c = '\n') cs
    else c :: cssSelGoF fuel (c = '\n') cs

/-- Driver for the line-anchored CSS selector pass. -/
def cssSelGo (atStart : Bool) (l : List Char) : List Char :=
  cssSelGoF l.length atStart l

/-- Matcher of the CSS number pass `(\d+)(px|em|rem|%|vh|vw)?` →
`<span class="number">$1$2</span>`, with the unit alternatives tried in
source order. -/
def cssNumTry (l : List Char) : Option (List Char × Nat) :=
  let d := l.takeWhile Char.isDigit
  if d = [] then none
  else
    let r := l.drop d.length
    let unit : List Char :=
      if "px".toList.isPrefixOf r then "px".toList
      else if "em".toList.isPrefixOf r then "em".toList
      else if "rem".toList.isPrefixOf r then "rem".toList
      else if "%".toList.isPrefixOf r then "%".toList
      else if "vh".toList.isPrefixOf r then "vh".toList
      else if "vw".toList.isPrefixOf r then "vw".toList
      else []
    some ("<span class=\"number\">".toList ++ d ++ unit ++ "</span>".toList,
          d.length + unit.length)

/-- The `css`/`scss` branch of `highlightCode`, in source order. -/
def cssHighlight (highlighted : List Char) : List Char :=
  let highlighted := scanRep cssPropTry highlighted
  let highlighted := scanRep cssValTry highlighted
  let highlighted := cssSelGo true highlighted
  let highlighted := scanRep cssNumTry highlighted
  scanRep blockCommentTry highlighted

/-- Matcher of the markup tag pass `&lt;(\/?[\w-]+)` →
`&lt;<span class="keyword">$1</span>`. -/
def htmlTagTry : List Char → Option (List Char × Nat)
  | '&' :: 'l' :: 't' :: ';' :: rest =>
    let pr : List Char × List Char :=
      match rest with
      | '/' :: r => (['/'], r)
      | _ => ([], rest)
    let w := pr.2.takeWhile (fun c => isWordChar c || c = '-')
    if w ≠ [] then
      some ("&lt;<span class=\"keyword\">".toList ++ pr.1 ++ w ++
              "</span>".toList,
            4 + pr.1.length + w.length)
    else none
  | _ => none

/-- Matcher of the markup attribute pass `(\w+)=` →
`<span class="property">$1</span>=`. -/
def htmlAttrTry (l : List Char) : Option (List Char × Nat) :=
  let w := l.takeWhile isWordChar
  if w ≠ [] && (l.drop w.length).head? = some '=' then
    some ("<span class=\"property\">".toList ++ w ++ "</span>=".toList,
          w.length + 1)
  else none

/-- Matcher of the markup attribute-value pass `="([^"]*)"` →
`=<span class="string">"$1"</span>`. -/
def htmlValTry : List Char → Option (List Char × Nat)
  | '=' :: '"' :: rest =>
    let ct := rest.takeWhile (fun x => x ≠ '"')
    if (rest.drop ct.length).head? = some '"' then
      some ("=<span class=\"string\">\"".toList ++ ct ++ "\"</span>".toList,
            3 + ct.length)
    else none
  | _ => none

/-- The `html`/`xml` branch of `highlightCode`, in source order. -/
def htmlHighlight (highlighted : List Char) : List Char :=
  let highlighted := scanRep htmlTagTry highlighted
  let highlighted := scanRep htmlAttrTry highlighted
  scanRep htmlValTry highlighted

/-- Language dispatch of `highlightCode`, applied to the already-escaped
text (the chain of `if` tests mirrors the source's `lang === ...`
comparisons). -/
def applyLangHighlight (lang : Option String) (highlighted : List Char) :
    List Char :=
  if lang == some "java" || lang == some "javascript" ||
      lang == some "typescript" || lang == some "js" || lang == some "ts" then
    jsHighlight highlighted
  else if lang == some "css" || lang == some "scss" then
    cssHighlight highlighted
  else if lang == some "html" || lang == some "xml" then
    htmlHighlight highlighted
  else highlighted

/-- Model of `highlightCode(code, lang?)`: HTML-escape the raw code first, then apply
the language-specific token-wrapping passes. -/
def highlightCode (code : List Char) (lang : Option String) : List Char :=
  applyLangHighlight lang (escapeHtml code)

/-- Lazy search for the closing triple backtick of a fenced code block
(`[\s\S]*?` spans newlines). -/
def fenceClose : List Char → Option (List Char × Nat)
  | [] => none
  | c :: cs =>
    if c = btick && cs.take 2 = [btick, btick] then some ([], 3)
    else (fenceClose cs).map (fun p => (c :: p.1, p.2 + 1))

/-- Matcher of the fenced-code-block pass
```` ```(\w+)?\n([\s\S]*?)``` ````: the replacement is computed by the
callback, which trims the captured code, highlights it, and wraps it in the
`code-wrapper` `<div>` with a `language-<lang>` class (defaulting to
`text`). -/
def fenceTry (l : List Char) : Option (List Char × Nat) :=
  if l.take 3 = [btick, btick, btick] then
    let rest := l.drop 3
    let lang := rest.takeWhile isWordChar
    match rest.drop lang.length with
    | '\n' :: r3 =>
      match fenceClose r3 with
      | some (content, m) =>
        let langOpt : Option String :=
          if lang = [] then none else some lang.asString
        let langPart : List Char := if lang = [] then "text".toList else lang
        let codeHtml := highlightCode (jsTrim content) langOpt
        some ("<div class=\"code-wrapper\"><pre><code class=\"language-".toList
                ++ langPart ++ "\">".toList ++ codeHtml ++
                "</code></pre></div>".toList,
              3 + lang.length + 1 + m)
      | none => none
    | _ => none
  else none

/-- Model of `renderMarkdown` of the guide viewer: the fixed pipeline of substitution
passes in source order. -/
def renderMarkdownL (markdown : List Char) : List Char :=
  let html := markdown
  let html := mapLines (headerLine "###".toList "h3".toList) html
  let html := mapLines (headerLine "##".toList "h2".toList) html
  let html := mapLines (headerLine "#".toList "h1".toList) html
  let html := scanRep boldTry html
  let html := scanRep italTry html
  let html := scanRep fenceTry html
  let html := scanRep inlineCodeTry html
  let html := scanRep linkTry html
  let html := mapLines liLine html
  let html := ulWrapPass html
  let html := mapLines olLine html
  let html := mapLines hrLine html
  let html := "<p>".toList ++ scanRep paraTry html ++ "</p>".toList
  let html := scanRep emptyPTry html
  let html := scanRep pOpenHTry html
  let html := scanRep closeHPTry html
  let html := scanRep pUlTry html
  let html := scanRep ulPTry html
  let html := scanRep pDivTry html
  let html := scanRep divPTry html
  scanRep pHrPTry html

/-- String-level wrapper of the renderer. -/
def renderMarkdown (markdown : String) : String :=
  (renderMarkdownL markdown.toList).asString

/-- The fixed category enumeration of `guide.model.ts`. -/
inductive GuideCategory where
  | architecture
  | environment
  | backend
  | frontend
  | tests
  | sonarqube
  | docker
  | cicd
  | deployment
  | monitoring
deriving DecidableEq, Repr

/-- The `Guide` record of `guide.model.ts` (`lastUpdated` is modelled as an
abstract timestamp, `order` as an integer JavaScript number). -/
structure Guide where
  id : String
  title : String
  category : GuideCategory
  content : String
  tags : List String
  order : Int
  icon : String
  color : String
  lastUpdated : Nat
  isViewed : Option Bool := none
deriving DecidableEq, Repr

namespace GuideService

/-- The catalog state: the current value of the service's guide list. -/
abbrev Catalog := List Guide

/-- Model of `getGuides()`: it exposes the current list. -/
def getGuides (state : Catalog) : List Guide := state

/-- Model of `getGuideById(id)`: `Array.prototype.find` on the current list. -/
def getGuideById (id : String) (state : Catalog) : Option Guide :=
  state.find? (fun g => g.id == id)

/-- Stable ascending insertion by the `order` field — the behaviour of
`Array.prototype.sort((a, b) => a.order - b.order)`. -/
def insertByOrder (g : Guide) : List Guide → List Guide
  | [] => [g]
  | h :: t => if g.order ≤ h.order then g :: h :: t else h :: insertByOrder g t

/-- Stable sort by ascending `order`. -/
def sortByOrder (l : List Guide) : List Guide :=
  l.foldr insertByOrder []

/-- Model of `getGuidesByCategory(category)`: filter by category, then sort ascending
by `order`. -/
def getGuidesByCategory (category : GuideCategory) (state : Catalog) :
    List Guide :=
  sortByOrder (state.filter (fun g => g.category == category))

/-- Case-insensitive substring test used by `searchGuides` (JavaScript
`toLowerCase()` + `includes`). -/
def lowerContains (hay needle : String) : Bool :=
  containsSub (needle.toList.map Char.toLower) (hay.toList.map Char.toLower)

/-- Model of `searchGuides(query)`: case-insensitive match against title, content and
any tag. -/
def searchGuides (query : String) (state : Catalog) : List Guide :=
  state.filter (fun g =>
    lowerContains g.title query || lowerContains g.content query ||
      g.tags.any (fun t => lowerContains t query))

/-- Model of `markAsViewed(id)`: map over the current list, setting `isViewed: true`
on records with the given id, and publish the new list. -/
def markAsViewed (id : String) (state : Catalog) : Catalog :=
  state.map (fun g => if g.id == id then { g with isViewed := some true } else g)

/-- The public operations of the service, as state transformers: the four
query operations do not change the catalog; only `markAsViewed` does. -/
inductive ServiceOp where
  | getGuides
  | getGuideById (id : String)
  | getGuidesByCategory (category : GuideCategory)
  | searchGuides (query : String)
  | markAsViewed (id : String)

/-- Effect of one operation on the catalog state. -/
def applyOp : ServiceOp → Catalog → Catalog
  | .markAsViewed id, s => markAsViewed id s
  | _, s => s

/-- Effect of a sequence of operations, applied left to right. -/
def applyOps (ops : List ServiceOp) (state : Catalog) : Catalog :=
  ops.foldl (fun s op => applyOp op s) state

end GuideService

/-- The language tags recognised by one of the three highlighting branches;
any other (or absent) tag falls through to the escape-only default. -/
def recognizedLang (lang : Option String) : Bool :=
  lang == some "java" || lang == some "javascript" ||
    lang == some "typescript" || lang == some "js" || lang == some "ts" ||
    lang == some "css" || lang == some "scss" ||
    lang == some "html" || lang == some "xml"

/-- A small concrete catalog in the shape of the hardcoded guide list, used
to instantiate hypotheses of the catalog theorems. -/
def sampleGuide1 : Guide :=
  { id := "backend-entites", title := "Les Entites JPA",
    category := GuideCategory.backend, content := "# Les Entites JPA",
    tags := ["JPA", "Entity"], order := 1, icon := "storage",
    color := "#10b981", lastUpdated := 0, isViewed := none }

def sampleGuide2 : Guide :=
  { id := "backend-services", title := "Les Services Spring",
    category := GuideCategory.backend, content := "# Les Services",
    tags := ["Service"], order := 2, icon := "build",
    color := "#10b981", lastUpdated := 0, isViewed := none }

def sampleCatalog : List Guide := [sampleGuide1, sampleGuide2]

/-! ### General lemmas about the scanning engine -/

theorem scanRepF_nil (f : List Char → Option (List Char × Nat)) (fuel : Nat) :
    scanRepF f fuel [] = [] := by
  cases fuel <;> rfl

theorem scanRepF_congr (f : List Char → Option (List Char × Nat)) :
    ∀ (fuel1 fuel2 : Nat) (l : List Char), l.length ≤ fuel1 → l.length ≤ fuel2 →
      scanRepF f fuel1 l = scanRepF f fuel2 l := by
  intro fuel1
  induction fuel1 with
  | zero =>
    intro fuel2 l h1 _
    have : l = [] := List.eq_nil_of_length_eq_zero (Nat.le_zero.mp h1)
    subst this
    simp [scanRepF_nil]
  | succ fuel ih =>
    intro fuel2 l h1 h2
    cases l with
    | nil => simp [scanRepF_nil]
    | cons c cs =>
      cases fuel2 with
      | zero => simp at h2
      | succ fuel2' =>
        simp only [scanRepF]
        cases hf : f (c :: cs) with
        | none =>
          have := ih fuel2' cs (by simpa using Nat.lt_succ_iff.mp h1)
            (by simpa using Nat.lt_succ_iff.mp h2)
          simp [this]
        | some p =>
          have hd : (cs.drop (p.2 - 1)).length ≤ cs.length := by
            simp only [List.length_drop]; omega
          have hl1 : cs.length ≤ fuel := by simpa using Nat.lt_succ_iff.mp h1
          have hl2 : cs.length ≤ fuel2' := by simpa using Nat.lt_succ_iff.mp h2
          have := ih fuel2' (cs.drop (p.2 - 1)) (le_trans hd hl1) (le_trans hd hl2)
          simp [this]

theorem scanRep_nil (f : List Char → Option (List Char × Nat)) :
    scanRep f [] = [] := rfl

theorem scanRep_cons_none (f : List Char → Option (List Char × Nat))
    (c : Char) (cs : List Char) (h : f (c :: cs) = none) :
    scanRep f (c :: cs) = c :: scanRep f cs := by
  simp [scanRep, scanRepF, h]

theorem scanRep_cons_some (f : List Char → Option (List Char × Nat))
    (c : Char) (cs r : List Char) (n : Nat) (h : f (c :: cs) = some (r, n)) :
    scanRep f (c :: cs) = r ++ scanRep f (cs.drop (n - 1)) := by
  simp only [scanRep, List.length_cons, scanRepF, h]
  have : (cs.drop (n - 1)).length ≤ cs.length := by
    simp only [List.length_drop]; omega
  rw [scanRepF_congr f cs.length (cs.drop (n - 1)).length _ this le_rfl]

theorem scanRep_prepend (f : List Char → Option (List Char × Nat))
    (pre rest : List Char) (h : ∀ c r, c ∈ pre → f (c :: r) = none) :
    scanRep f (pre ++ rest) = pre ++ scanRep f rest := by
  induction pre with
  | nil => simp
  | cons c pre' ih =>
    have h1 : f (c :: (pre' ++ rest)) = none := h c _ (by simp)
    rw [List.cons_append, scanRep_cons_none f _ _ h1,
      ih (fun d r hd => h d r (by simp [hd]))]
    simp

theorem scanRep_eq_self (f : List Char → Option (List Char × Nat))
    (l : List Char) (h : ∀ c r, c ∈ l → f (c :: r) = none) :
    scanRep f l = l := by
  have := scanRep_prepend f l [] h
  simpa [scanRep_nil] using this

/-! ### Lemmas about first/last occurrence splitting -/

theorem splitFirst_prepend (p : Char) (pat pre rest : List Char)
    (h : p ∉ pre) :
    splitFirst (p :: pat) (pre ++ rest) =
      (splitFirst (p :: pat) rest).map (fun q => (pre ++ q.1, q.2)) := by
  induction pre with
  | nil =>
    cases hs : splitFirst (p :: pat) rest <;> simp [hs]
  | cons c pre' ih =>
    have hpc : ¬ (p = c) := by
      intro hcp; exact h (by simp [hcp])
    have hpre : p ∉ pre' := fun hm => h (by simp [hm])
    have hnp : (p :: pat).isPrefixOf (c :: (pre' ++ rest)) = false := by
      rw [List.isPrefixOf_cons₂]
      simp [hpc]
    rw [List.cons_append]
    rw [show splitFirst (p :: pat) (c :: (pre' ++ rest)) =
          if (p :: pat).isPrefixOf (c :: (pre' ++ rest)) = true then
            some ([], (c :: (pre' ++ rest)).drop (p :: pat).length)
          else (splitFirst (p :: pat) (pre' ++ rest)).map
            (fun q => (c :: q.1, q.2)) from rfl]
    rw [hnp]
    simp only [Bool.false_eq_true, if_false]
    rw [ih hpre]
    cases hs : splitFirst (p :: pat) rest <;> simp [hs]

theorem splitFirst_at_head (p : Char) (pat tail : List Char) :
    splitFirst (p :: pat) ((p :: pat) ++ tail) = some ([], tail) := by
  have hp : (p :: pat).isPrefixOf ((p :: pat) ++ tail) = true := by
    rw [List.isPrefixOf_iff_prefix]
    exact List.prefix_append _ _
  rw [List.cons_append]
  rw [show splitFirst (p :: pat) (p :: (pat ++ tail)) =
        if (p :: pat).isPrefixOf (p :: (pat ++ tail)) = true then
          some ([], (p :: (pat ++ tail)).drop (p :: pat).length)
        else (splitFirst (p :: pat) (pat ++ tail)).map
          (fun q => (p :: q.1, q.2)) from rfl]
  rw [List.cons_append] at hp
  rw [hp]
  simp [List.drop_left]

/-! ### Lemmas about the paragraph matcher -/

theorem paraTry_none (c : Char) (r : List Char) (h : c ≠ '\n') :
    paraTry (c :: r) = none := by
  cases r with
  | nil => rfl
  | cons c2 r2 => simp [paraTry, h]

theorem paraTry_match (b : List Char) :
    paraTry ('\n' :: '\n' :: b) = some ("</p><p>".toList, 2) := by
  simp [paraTry]

/-! ### Lemmas about the fenced-code-block matcher -/

theorem fenceClose_prepend (p q : List Char) (hp : btick ∉ p) :
    fenceClose (p ++ q) =
      (fenceClose q).map (fun pr => (p ++ pr.1, pr.2 + p.length)) := by
  induction p with
  | nil => cases hq : fenceClose q <;> simp [hq]
  | cons c p' ih =>
    have hc : ¬ (c = btick) := fun he => hp (by simp [he])
    have hp' : btick ∉ p' := fun hm => hp (by simp [hm])
    rw [List.cons_append]
    rw [show fenceClose (c :: (p' ++ q)) =
          if c = btick && (p' ++ q).take 2 = [btick, btick] then some ([], 3)
          else (fenceClose (p' ++ q)).map (fun pr => (c :: pr.1, pr.2 + 1))
        from rfl]
    rw [if_neg (by simp [hc])]
    rw [ih hp']
    cases hq : fenceClose q with
    | none => simp [hq]
    | some pr => simp [hq, Nat.add_assoc]

theorem fenceClose_fence : fenceClose [btick, btick, btick] = some ([], 3) := by
  decide

theorem fenceTry_block (P : List Char) (hP : btick ∉ P) :
    fenceTry (btick :: btick :: btick :: '\n' :: (P ++ [btick, btick, btick])) =
      some ("<div class=\"code-wrapper\"><pre><code class=\"language-".toList ++
              "text".toList ++ "\">".toList ++
              highlightCode (jsTrim P) none ++ "</code></pre></div>".toList,
            7 + P.length) := by
  have hfc : fenceClose (P ++ [btick, btick, btick]) = some (P, 3 + P.length) := by
    rw [fenceClose_prepend P _ hP, fenceClose_fence]
    simp [Nat.add_comm]
  have hnw : isWordChar '\n' = false := by decide
  have htw : List.takeWhile isWordChar
      ('\n' :: (P ++ [btick, btick, btick])) = [] := by
    rw [List.takeWhile_cons, hnw]
    simp
  simp [fenceTry, hfc, htw]
  omega

theorem scanRep_fence_block (P : List Char) (hP : btick ∉ P) :
    scanRep fenceTry
        (btick :: btick :: btick :: '\n' :: (P ++ [btick, btick, btick])) =
      "<div class=\"code-wrapper\"><pre><code class=\"language-".toList ++
        "text".toList ++ "\">".toList ++
        highlightCode (jsTrim P) none ++ "</code></pre></div>".toList := by
  rw [scanRep_cons_some fenceTry btick
    (btick :: btick :: '\n' :: (P ++ [btick, btick, btick])) _
    (7 + P.length) (fenceTry_block P hP)]
  have hlen : 7 + P.length - 1 =
      (btick :: btick :: '\n' :: (P ++ [btick, btick, btick])).length := by
    simp
    omega
  rw [hlen, List.drop_length, scanRep_nil, List.append_nil]

/-! ### Lemmas about the stable sort of `getGuidesByCategory` -/

namespace GuideService

theorem mem_insertByOrder (g x : Guide) (l : List Guide) :
    x ∈ insertByOrder g l ↔ x = g ∨ x ∈ l := by
  induction l with
  | nil => simp [insertByOrder]
  | cons h t ih =>
    by_cases hc : g.order ≤ h.order
    · simp [insertByOrder, hc]
    · simp only [insertByOrder, if_neg hc, List.mem_cons, ih]
      tauto

theorem insertByOrder_perm (g : Guide) (l : List Guide) :
    List.Perm (insertByOrder g l) (g :: l) := by
  induction l with
  | nil => simp [insertByOrder]
  | cons h t ih =>
    by_cases hc : g.order ≤ h.order
    · simp [insertByOrder, hc]
    · simp only [insertByOrder, if_neg hc]
      exact (ih.cons h).trans (List.Perm.swap g h t)

theorem insertByOrder_pairwise (g : Guide) (l : List Guide)
    (h : l.Pairwise (fun a b => a.order ≤ b.order)) :
    (insertByOrder g l).Pairwise (fun a b => a.order ≤ b.order) := by
  induction l with
  | nil => simp [insertByOrder]
  | cons hd t ih =>
    rw [List.pairwise_cons] at h
    by_cases hc : g.order ≤ hd.order
    · rw [insertByOrder, if_pos hc, List.pairwise_cons]
      refine ⟨?_, List.pairwise_cons.mpr h⟩
      intro x hx
      rcases List.mem_cons.mp hx with hx | hx
      · exact hx ▸ hc
      · exact le_trans hc (h.1 x hx)
    · rw [insertByOrder, if_neg hc, List.pairwise_cons]
      refine ⟨?_, ih h.2⟩
      intro x hx
      rcases (mem_insertByOrder g x t).mp hx with hx | hx
      · exact hx ▸ le_of_lt (lt_of_not_le hc)
      · exact h.1 x hx

theorem sortByOrder_perm (l : List Guide) :
    List.Perm (sortByOrder l) l := by
  induction l with
  | nil => simp [sortByOrder]
  | cons g t ih =>
    exact (insertByOrder_perm g (sortByOrder t)).trans (ih.cons g)

theorem sortByOrder_pairwise (l : List Guide) :
    (sortByOrder l).Pairwise (fun a b => a.order ≤ b.order) := by
  induction l with
  | nil => simp [sortByOrder]
  | cons g t ih => exact insertByOrder_pairwise g _ ih

end GuideService

/-! ### Claim theorems -/

/-- Claim C7: for every catalog state and every id present in it,
`markAsViewed(id)` sets `isViewed` to `true` on the records with that id,
leaves every other record — and every other field of the targeted record —
unchanged, and is idempotent. -/
theorem markAsViewed_sets_and_frames (state : List Guide) (id : String)
    (h : ∃ g ∈ state, g.id = id) :
    (∀ (i : Nat) (g g' : Guide), state[i]? = some g →
        (GuideService.markAsViewed id state)[i]? = some g' →
        (g.id = id → g' = { g with isViewed := some true }) ∧
        (g.id ≠ id → g' = g)) ∧
    (∃ g ∈ GuideService.markAsViewed id state,
        g.id = id ∧ g.isViewed = some true) ∧
    GuideService.markAsViewed id (GuideService.markAsViewed id state) =
      GuideService.markAsViewed id state := by
  refine ⟨?_, ?_, ?_⟩
  · intro i g g' hg hg'
    rw [GuideService.markAsViewed, List.getElem?_map, hg] at hg'
    simp only [Option.map_some', Option.some.injEq] at hg'
    constructor
    · intro hid
      rw [← hg']
      simp [hid]
    · intro hid
      rw [← hg']
      simp [hid]
  · obtain ⟨g, hmem, hid⟩ := h
    refine ⟨{ g with isViewed := some true }, ?_, by simp [hid], by simp⟩
    have : { g with isViewed := some true } =
        (fun g => if g.id == id then { g with isViewed := some true } else g) g := by
      simp [hid]
    rw [GuideService.markAsViewed, this]
    exact List.mem_map_of_mem _ hmem
  · rw [GuideService.markAsViewed, GuideService.markAsViewed, List.map_map]
    apply List.map_congr_left
    intro g _
    by_cases hid : g.id = id
    · simp [hid]
    · simp [hid]

/-- Claim C7 witness: instantiation of the idempotence part on a concrete
two-guide catalog. -/
theorem markAsViewed_sets_and_frames_witness :
    GuideService.markAsViewed "backend-entites"
        (GuideService.markAsViewed "backend-entites" sampleCatalog) =
      GuideService.markAsViewed "backend-entites" sampleCatalog :=
  (markAsViewed_sets_and_frames sampleCatalog "backend-entites"
    ⟨sampleGuide1, by simp [sampleCatalog], by decide⟩).2.2

/-- Claim C8: in every catalog state reachable by any sequence of service
operations, once a record's `isViewed` is `some true` it stays `some true`:
no operation ever resets it. -/
theorem isViewed_never_reverts (ops : List GuideService.ServiceOp)
    (state : List Guide) (i : Nat)
    (h : (state[i]?).map Guide.isViewed = some (some true)) :
    (((GuideService.applyOps ops state)[i]?).map Guide.isViewed) =
      some (some true) := by
  induction ops generalizing state with
  | nil => exact h
  | cons op ops ih =>
    rw [GuideService.applyOps, List.foldl_cons]
    apply ih
    cases op with
    | markAsViewed id =>
      rw [GuideService.applyOp, GuideService.markAsViewed, List.getElem?_map]
      cases hg : state[i]? with
      | none => rw [hg] at h; simp at h
      | some g =>
        rw [hg] at h
        simp only [Option.map_some', Option.some.injEq] at h
        by_cases hid : g.id = id
        · simp [hid]
        · simp [hid, h]
    | getGuides => exact h
    | getGuideById id => exact h
    | getGuidesByCategory category => exact h
    | searchGuides query => exact h

/-- Claim C8 witness: after marking guide 1 viewed, a further sequence of
operations — including repeated marks and queries — keeps it viewed. -/
theorem isViewed_never_reverts_witness :
    (((GuideService.applyOps
        [GuideService.ServiceOp.getGuides,
         GuideService.ServiceOp.markAsViewed "backend-services",
         GuideService.ServiceOp.searchGuides "jpa",
         GuideService.ServiceOp.markAsViewed "backend-entites"]
        (GuideService.markAsViewed "backend-entites" sampleCatalog))[0]?).map
      Guide.isViewed) = some (some true) :=
  isViewed_never_reverts _ _ 0 (by decide)

/-- Claim C9: `getGuidesByCategory(category)` returns exactly the records
whose `category` field equals the given category (as a permutation of the
filtered catalog), in ascending order of the `order` field. -/
theorem getGuidesByCategory_sorted_filter (state : List Guide)
    (category : GuideCategory) :
    List.Perm (GuideService.getGuidesByCategory category state)
        (state.filter (fun g => g.category == category)) ∧
    (GuideService.getGuidesByCategory category state).Pairwise
        (fun a b => a.order ≤ b.order) := by
  constructor
  · exact GuideService.sortByOrder_perm _
  · exact GuideService.sortByOrder_pairwise _

/-- Claim C2 (amended): because the wrap pass's single match is greedy and
`s`-flagged, it wraps everything from the *first* `<li>` to the *last*
`</li>` of the document — including any intervening non-list text and all
later `<li>` runs — in one `<ul>…</ul>`; later runs do not stay outside the
`<ul>`.  Stated for any document of that shape whose prefix contains no `<`
(so the literal `<li>` is the first) and whose suffix contains no `>` (so the
literal `</li>` is the last). -/
theorem ulWrapPass_wraps_first_li_to_last_li (pre mid post : List Char)
    (h1 : '<' ∉ pre) (h2 : '>' ∉ post) :
    ulWrapPass (pre ++ "<li>".toList ++ mid ++ "</li>".toList ++ post) =
      pre ++ "<ul><li>".toList ++ mid ++ "</li></ul>".toList ++ post := by
  have eLi : "<li>".toList = '<' :: "li>".toList := rfl
  have eClR : "</li>".toList.reverse = '>' :: "il/<".toList := by decide
  have hX : splitFirst "<li>".toList
      (pre ++ "<li>".toList ++ mid ++ "</li>".toList ++ post) =
      some (pre, mid ++ "</li>".toList ++ post) := by
    have : pre ++ "<li>".toList ++ mid ++ "</li>".toList ++ post =
        pre ++ ("<li>".toList ++ (mid ++ "</li>".toList ++ post)) := by
      simp [List.append_assoc]
    rw [this, eLi, splitFirst_prepend '<' "li>".toList pre _ h1,
      splitFirst_at_head]
    simp
  have hY : splitLast "</li>".toList (mid ++ "</li>".toList ++ post) =
      some (mid, post) := by
    rw [splitLast]
    have hrev : (mid ++ "</li>".toList ++ post).reverse =
        post.reverse ++ ("</li>".toList.reverse ++ mid.reverse) := by
      simp [List.reverse_append, List.append_assoc]
    rw [hrev, eClR,
      splitFirst_prepend '>' "il/<".toList post.reverse _
        (by simpa using h2),
      splitFirst_at_head]
    simp
  simp only [ulWrapPass, hX, hY]
  simp only [List.append_assoc]
  have e1 : "<ul>".toList ++ "<li>".toList = "<ul><li>".toList := by decide
  have e2 : "</li>".toList ++ "</ul>".toList = "</li></ul>".toList := by decide
  rw [← List.append_assoc "<ul>".toList "<li>".toList, e1,
    ← List.append_assoc "</li>".toList "</ul>".toList, e2]

/-- Claim C2 (amended) witness: a document with two bullet runs separated by
plain text; the second run's items end up inside the single `<ul>`. -/
theorem ulWrapPass_wraps_first_li_to_last_li_witness :
    ulWrapPass ("ab".toList ++ "<li>".toList ++
        "u</li>\n\nx\n\n<li>v".toList ++ "</li>".toList ++ "cd".toList) =
      "ab".toList ++ "<ul><li>".toList ++ "u</li>\n\nx\n\n<li>v".toList ++
        "</li></ul>".toList ++ "cd".toList :=
  ulWrapPass_wraps_first_li_to_last_li "ab".toList
    "u</li>\n\nx\n\n<li>v".toList "cd".toList (by decide) (by decide)

/-- Claim C10: fenced-code output is not protected from the later paragraph
pass.  First conjunct: for every backtick-free content, the fenced-code pass
replaces the untagged fenced block by the `<pre><code>` wrapping of the
trimmed, highlighted content — so any blank line of the trimmed content is
still literally present inside the generated element.  Second conjunct: the
paragraph substitution then rewrites a blank line (`\n\n`) embedded between
newline-free stretches into `</p><p>`, wherever it sits.  Third conjunct:
end to end, a fenced block whose trimmed content contains a blank line gets
that blank line rewritten to `</p><p>` inside the `<pre><code>` element. -/
theorem paragraphPass_rewrites_blank_line_in_code :
    (∀ P : List Char, btick ∉ P →
      scanRep fenceTry
          (btick :: btick :: btick :: '\n' :: (P ++ [btick, btick, btick])) =
        "<div class=\"code-wrapper\"><pre><code class=\"language-".toList ++
          "text".toList ++ "\">".toList ++
          highlightCode (jsTrim P) none ++ "</code></pre></div>".toList) ∧
    (∀ a b : List Char, '\n' ∉ a → '\n' ∉ b →
      scanRep paraTry (a ++ '\n' :: '\n' :: b) =
        a ++ "</p><p>".toList ++ b) ∧
    renderMarkdown "```\nalpha\n\nbeta\n```" =
      "<div class=\"code-wrapper\"><pre><code class=\"language-text\">alpha</p><p>beta</code></pre></div>" := by
  refine ⟨?_, ?_, by decide⟩
  · intro P hP
    exact scanRep_fence_block P hP
  · intro a b ha hb
    rw [scanRep_prepend paraTry a _
      (fun c r hc => paraTry_none c r (fun he => ha (he ▸ hc)))]
    rw [scanRep_cons_some paraTry '\n' ('\n' :: b) _ 2 (paraTry_match b)]
    simp only [List.drop_succ_cons, List.drop_zero]
    rw [scanRep_eq_self paraTry b
      (fun c r hc => paraTry_none c r (fun he => hb (he ▸ hc)))]
    simp [List.append_assoc]

/-- Claim C10 witness: instantiation of the fence-pass conjunct and of the
paragraph-pass conjunct on concrete contents with a blank line. -/
theorem paragraphPass_rewrites_blank_line_in_code_witness :
    scanRep fenceTry
        (btick :: btick :: btick :: '\n' ::
          ("alpha\n\nbeta\n".toList ++ [btick, btick, btick])) =
      "<div class=\"code-wrapper\"><pre><code class=\"language-".toList ++
        "text".toList ++ "\">".toList ++
        highlightCode (jsTrim "alpha\n\nbeta\n".toList) none ++
        "</code></pre></div>".toList ∧
    scanRep paraTry ("alpha".toList ++ '\n' :: '\n' :: "beta".toList) =
      "alpha".toList ++ "</p><p>".toList ++ "beta".toList :=
  ⟨paragraphPass_rewrites_blank_line_in_code.1 "alpha\n\nbeta\n".toList
      (by decide),
    paragraphPass_rewrites_blank_line_in_code.2.1 "alpha".toList "beta".toList
      (by decide) (by decide)⟩

/-- Claim C1: `renderMarkdown` is a total function on strings (it is a plain
function of this development, so it terminates and yields a string on every
input and raises nothing), and malformed markdown degrades to literal
output: an unmatched triple-backtick fence is left verbatim in the rendered
result. -/
theorem renderMarkdown_total_and_degrades :
    (∀ s : String, ∃ t : String, renderMarkdown s = t) ∧
    renderMarkdown "```java\nx" = "<p>```java\nx</p>" ∧
    containsSub "```".toList (renderMarkdown "```java\nx").toList = true := by
  refine ⟨fun s => ⟨renderMarkdown s, rfl⟩, by decide, by decide⟩

/-- Claim C2 counterexample: in the document `"- a\n\nx\n\n- b"` two bullet
runs are separated by the plain text `x`, yet the second run's `<li>b</li>`
does *not* remain outside a `<ul>`: the output contains exactly one
`<ul>`/`</ul>` pair and `<li>b</li>` sits strictly inside it. -/
theorem renderMarkdown_second_run_inside_ul :
    renderMarkdown "- a\n\nx\n\n- b" =
      "<ul><li>a</li></p><p>x</p><p><li>b</li></ul>" ∧
    (renderMarkdown "- a\n\nx\n\n- b").toList =
      "<ul>".toList ++ "<li>a</li></p><p>x</p><p><li>b</li>".toList ++
        "</ul>".toList ∧
    containsSub "<li>b</li>".toList
      "<li>a</li></p><p>x</p><p><li>b</li>".toList = true ∧
    countSub "<ul>".toList (renderMarkdown "- a\n\nx\n\n- b").toList = 1 ∧
    countSub "</ul>".toList (renderMarkdown "- a\n\nx\n\n- b").toList = 1 := by
  refine ⟨by decide, by decide, by decide, by decide, by decide⟩

/-- Claim C3 (behaviour at the claimed input): rendering
`"```java\npublic class Foo {}\n```"` does produce the `code-wrapper` `<div>`,
the `<code class="language-java">` element and
`<span class="class">Foo</span>`, but no intact
`<span class="keyword">public</span>` or `<span class="keyword">class</span>`
survives: the later `class`-keyword pass rewrites the `class` attribute of
the spans inserted by earlier keyword passes, and the string pass then wraps
their `"keyword"` attribute values. -/
theorem highlight_java_keyword_spans_corrupted :
    renderMarkdown "```java\npublic class Foo {}\n```" =
      "<div class=\"code-wrapper\"><pre><code class=\"language-java\"><span <span class=<span class=\"string\">\"keyword\"</span>>class</span>=<span class=\"string\">\"keyword\"</span>>public</span> <span class=<span class=\"string\">\"keyword\"</span>>class</span> <span class=\"class\">Foo</span> {}</code></pre></div>" ∧
    containsSub "<div class=\"code-wrapper\">".toList
      (renderMarkdown "```java\npublic class Foo {}\n```").toList = true ∧
    containsSub "<code class=\"language-java\">".toList
      (renderMarkdown "```java\npublic class Foo {}\n```").toList = true ∧
    containsSub "<span class=\"class\">Foo</span>".toList
      (renderMarkdown "```java\npublic class Foo {}\n```").toList = true ∧
    containsSub "<span class=\"keyword\">public</span>".toList
      (renderMarkdown "```java\npublic class Foo {}\n```").toList = false ∧
    containsSub "<span class=\"keyword\">class</span>".toList
      (renderMarkdown "```java\npublic class Foo {}\n```").toList = false ∧
    containsSub "<span class=\"keyword\">".toList
      (renderMarkdown "```java\npublic class Foo {}\n```").toList = false := by
  refine ⟨by decide, by decide, by decide, by decide, by decide, by decide,
    by decide⟩

/-- Claim C4: `highlightCode` escapes its raw input before any
token-wrapping substitution (it factors through `escapeHtml`), is total, and
for an absent or unrecognized language tag returns exactly the escaped
input; in particular `highlight("<script>", undefined)` is the escaped form,
with no unescaped `<script>` and no `<span` wrapping. -/
theorem highlightCode_escape_first_and_fallback :
    (∀ (code : List Char) (lang : Option String), ∃ out : List Char,
        highlightCode code lang = out) ∧
    (∀ (code : List Char) (lang : Option String),
        highlightCode code lang = applyLangHighlight lang (escapeHtml code)) ∧
    (∀ (code : List Char) (lang : Option String),
        recognizedLang lang = false → highlightCode code lang = escapeHtml code) ∧
    highlightCode "<script>".toList none = "&lt;script&gt;".toList ∧
    containsSub "<script>".toList (highlightCode "<script>".toList none) =
      false ∧
    containsSub "<span".toList (highlightCode "<script>".toList none) =
      false := by
  refine ⟨fun code lang => ⟨highlightCode code lang, rfl⟩,
    fun code lang => rfl, ?_, by decide, by decide, by decide⟩
  intro code lang h
  rw [recognizedLang] at h
  simp only [Bool.or_eq_false_iff, beq_eq_false_iff_ne, ne_eq] at h
  obtain ⟨⟨⟨⟨⟨⟨⟨⟨h1, h2⟩, h3⟩, h4⟩, h5⟩, h6⟩, h7⟩, h8⟩, h9⟩ := h
  rw [highlightCode, applyLangHighlight,
    if_neg (by simp [h1, h2, h3, h4, h5]),
    if_neg (by simp [h6, h7]),
    if_neg (by simp [h8, h9])]

/-- Claim C4 witness: an unrecognized language tag falls back to escape-only
output on a concrete input. -/
theorem highlightCode_escape_first_and_fallback_witness :
    highlightCode "<b>".toList (some "ruby") = escapeHtml "<b>".toList :=
  highlightCode_escape_first_and_fallback.2.2.1 "<b>".toList (some "ruby")
    (by decide)

/-- Claim C5: `renderMarkdown("# Title")` yields exactly `<h1>Title</h1>`,
with the paragraph tags added by the paragraph pass stripped again by the
cleanup pass — no `<p>` remains in the output. -/
theorem renderMarkdown_h1_unwrapped :
    renderMarkdown "# Title" = "<h1>Title</h1>" ∧
    containsSub "<p>".toList (renderMarkdown "# Title").toList = false := by
  refine ⟨by decide, by decide⟩

/-- Claim C6: `renderMarkdown("**bold** and *italic*")` contains
`<strong>bold</strong>` before `<em>italic</em>`; the explicit decomposition
of the output exhibits the relative order, with the double-asterisk pair
consumed by the bold pass and not mis-split by the italic pass. -/
theorem renderMarkdown_bold_before_italic :
    renderMarkdown "**bold** and *italic*" =
      "<p><strong>bold</strong> and <em>italic</em></p>" ∧
    (renderMarkdown "**bold** and *italic*").toList =
      "<p>".toList ++ "<strong>bold</strong>".toList ++ " and ".toList ++
        "<em>italic</em>".toList ++ "</p>".toList := by
  refine ⟨by decide, by decide⟩

end DevFlow
